import Mathlib

/-!
Shallow embedding of the `aioroot` package (structure.py, rootfile.py):
binary decoders for the ROOT file format, the key-directory map, the
compression-header decoder and the orchestrator's adaptive readahead.

Buffers are `List Nat` (one entry per byte); offsets are `Int`, matching
Python integer arithmetic.  Fallible code returns `Except String`, with the
`RuntimeError` messages of the source.  `struct.unpack_from` failures are
reported as the string "struct.error".
-/

deriving instance DecidableEq for Except

set_option maxRecDepth 100000

namespace AIORoot

/-- A byte buffer: one `Nat` per byte (0..255 in every realistic input). -/
abbrev Bytes := List Nat

/-- Big-endian value of a byte list. -/
def beVal (l : Bytes) : Nat := l.foldl (fun a b => a * 256 + b) 0

/-- Little-endian value of a byte list (used only by the 3-byte
compression-size fields, which structure.py decodes with `struct "<I"`). -/
def leVal (l : Bytes) : Nat := l.foldr (fun b a => a * 256 + b) 0

/-- Two's-complement reinterpretation of a `w`-bit unsigned value. -/
def toSigned (w : Nat) (n : Nat) : Int :=
  if n < 2 ^ (w - 1) then (n : Int) else (n : Int) - 2 ^ w

/-- Bytes `[pos, pos+n)` of a buffer (used to cut fields out of an
already bounds-checked struct read). -/
def sliceN (b : Bytes) (pos n : Nat) : Bytes := (b.drop pos).take n

/-- Effective start position of `struct.unpack_from(buffer, offset)`:
a negative offset counts from the end of the buffer; the read fails
unless `size` bytes are available from that position. -/
def structBase (blen : Nat) (offset : Int) (size : Nat) : Option Nat :=
  let eff : Int := if offset < 0 then offset + blen else offset
  if 0 ≤ eff ∧ eff + size ≤ blen then some eff.toNat else none

/-- Read `size` raw bytes at `offset` with `struct.unpack_from` semantics.
On success the next offset is `offset + size` (NamedStruct.unpack_from
adds the struct size to the offset it was given). -/
def readRaw (b : Bytes) (offset : Int) (size : Nat) : Option (Bytes × Int) :=
  match structBase b.length offset size with
  | some eff => some (sliceN b eff size, offset + size)
  | none => none

/-- Unsigned big-endian field. -/
def uVal (raw : Bytes) (pos n : Nat) : Nat := beVal (sliceN raw pos n)

/-- Signed big-endian field. -/
def sVal (raw : Bytes) (pos n : Nat) : Int := toSigned (8 * n) (beVal (sliceN raw pos n))

/-- Normalization of one Python slice bound for a buffer of length `len`. -/
def pyIx (len : Nat) (i : Int) : Nat :=
  if i < 0 then (max 0 (i + len)).toNat else min i.toNat len

/-- Python slice `b[start:stop]` with full int semantics (negative bounds
count from the end, everything clamps, crossed bounds give `[]`). -/
def pySliceIx (b : Bytes) (start stop : Int) : Bytes :=
  let s := pyIx b.length start
  let e := pyIx b.length stop
  (b.drop s).take (e - s)

/-- Python runtime values, as far as the source compares them: a `bytes`
object never equals a `str` object in Python 3, whatever their contents. -/
inductive PyVal where
  | bytes (b : Bytes)
  | str (s : String)
deriving Repr, DecidableEq, Inhabited

/-- Python `==` between `bytes` and `str` values. -/
def PyVal.eq : PyVal → PyVal → Bool
  | .bytes a, .bytes b => a == b
  | .str a, .str b => a == b
  | _, _ => false

/-- Python dict assignment `m[a] = v` on an association list: replace the
value of an existing key, else append a new entry. -/
def aset {α : Type} (m : List (Bytes × α)) (a : Bytes) (v : α) : List (Bytes × α) :=
  match m with
  | [] => [(a, v)]
  | (b, w) :: tl => if b == a then (b, v) :: tl else (b, w) :: aset tl a v

/-- Little-endian ASCII decimal digits of `n`, with enough fuel to
terminate structurally (any `fuel ≥ n` gives the full digit list). -/
def natDecAux : Nat → Nat → Bytes
  | 0, _ => []
  | _, 0 => []
  | fuel + 1, n + 1 => ((n + 1) % 10 + 48) :: natDecAux fuel ((n + 1) / 10)

/-- ASCII decimal rendering of a natural number (Python `b"%d"`). -/
def natDec (n : Nat) : Bytes :=
  if n = 0 then [48] else (natDecAux n n).reverse

/-- ASCII decimal rendering of an integer (Python `b"%d"`): code 45 is
the minus sign. -/
def intDec (i : Int) : Bytes :=
  if i < 0 then 45 :: natDec (-i).toNat else natDec i.toNat

/-! ## TStreamed (structure.py lines 38-56) -/

/-- Fields of a streamed envelope after `TStreamed.read`: `fSize` holds the
size field with the 0x40000000 flag already subtracted (the source mutates
`fields['fSize']`), and `endOff` is the `self._end` attribute. -/
structure TStreamedData where
  fSize : Nat
  fVersion : Nat
  endOff : Int
deriving Repr, DecidableEq, Inhabited

/-- Body of `TStreamed.read` shared by every subclass calling
`super().read(...)`: unpack `>IH`, require the 0x40000000 flag in `fSize`,
record `self._end = offset + fSize - 2` and return the offset after the
version field. -/
def TStreamed.readBase (b : Bytes) (offset : Int) : Except String (TStreamedData × Int) :=
  match readRaw b offset 6 with
  | none => .error "struct.error"
  | some (raw, off1) =>
    let fSize := uVal raw 0 4
    let fVersion := uVal raw 4 2
    if fSize &&& 0x40000000 = 0 then .error "Unsupported streamer version"
    else
      let fSize' := fSize - 0x40000000
      .ok ({ fSize := fSize', fVersion := fVersion, endOff := off1 + (fSize' : Int) - 2 }, off1)

/-- `TStreamed.read` called on a plain `TStreamed` instance: after the
header the cursor jumps to `self._end` (`if type(self) is TStreamed`). -/
def TStreamed.read (b : Bytes) (offset : Int) : Except String (TStreamedData × Int) :=
  match TStreamed.readBase b offset with
  | .error e => .error e
  | .ok (st, _) => .ok (st, st.endOff)

/-- `TStreamed.check`: under- and over-read of an envelope are distinct
fatal errors. -/
def TStreamed.check (st : TStreamedData) (offset : Int) : Except String Unit :=
  if offset < st.endOff then .error "Did not read enough from a streamer"
  else if offset > st.endOff then .error "Read too much from a streamer"
  else .ok ()

/-! ## TString (structure.py lines 59-74) -/

/-- Length prefix of a `TString`: one unsigned byte, and when that byte is
255 a following signed 4-byte extended length.  Returns the decoded length
and the offset just past the prefix. -/
def TString.declen (b : Bytes) (offset : Int) : Option (Int × Int) :=
  match readRaw b offset 1 with
  | none => none
  | some (lb, off1) =>
    if beVal lb = 255 then
      match readRaw b off1 4 with
      | none => none
      | some (lb2, off2) => some (toSigned 32 (beVal lb2), off2)
    else some ((beVal lb : Int), off1)

/-- `TString.readstring`: length prefix, then `buffer[offset:offset+length]`
copied with Python slice semantics; the returned offset is `offset + length`
(raw integer addition, so a negative extended length moves the cursor
backward). -/
def TString.readstring (b : Bytes) (offset : Int) : Option (Bytes × Int) :=
  match TString.declen b offset with
  | none => none
  | some (len, off1) => some (pySliceIx b off1 (off1 + len), off1 + len)

/-! ## TFile (structure.py lines 84-114) -/

structure TFileData where
  magic : Bytes
  fVersion : Int
  fBEGIN : Int
  fEND : Int
  fSeekFree : Int
  fNbytesFree : Int
  nfree : Int
  fNbytesName : Int
  fUnits : Nat
  fCompress : Int
  fSeekInfo : Int
  fNbytesInfo : Int
  fUUID : Bytes
deriving Repr, DecidableEq, Inhabited

/-- The byte value of `b"root"`. -/
def rootMagic : Bytes := [114, 111, 111, 116]

/-- The branch condition of `TFile.read` line 99: the small (32-bit)
second header is selected when `fVersion < 1000000`. -/
def TFile.useSmall (v : Int) : Bool := v < 1000000

/-- `TFile.read`: `>4sii` header, magic check, version-branched second
header (`>iiiiiBiii18s` small / `>qqiiiBiqi18s` big), then the cursor is
set to `fBEGIN`. -/
def TFile.read (b : Bytes) (offset : Int) : Except String (TFileData × Int) :=
  match readRaw b offset 12 with
  | none => .error "struct.error"
  | some (h1, off1) =>
    if sliceN h1 0 4 ≠ rootMagic then .error "Wrong magic"
    else if TFile.useSmall (sVal h1 4 4) then
      match readRaw b off1 51 with
      | none => .error "struct.error"
      | some (h2, _) =>
        .ok ({ magic := sliceN h1 0 4, fVersion := sVal h1 4 4, fBEGIN := sVal h1 8 4,
               fEND := sVal h2 0 4, fSeekFree := sVal h2 4 4, fNbytesFree := sVal h2 8 4,
               nfree := sVal h2 12 4, fNbytesName := sVal h2 16 4, fUnits := uVal h2 20 1,
               fCompress := sVal h2 21 4, fSeekInfo := sVal h2 25 4, fNbytesInfo := sVal h2 29 4,
               fUUID := sliceN h2 33 18 }, sVal h1 8 4)
    else
      match readRaw b off1 63 with
      | none => .error "struct.error"
      | some (h2, _) =>
        .ok ({ magic := sliceN h1 0 4, fVersion := sVal h1 4 4, fBEGIN := sVal h1 8 4,
               fEND := sVal h2 0 8, fSeekFree := sVal h2 8 8, fNbytesFree := sVal h2 16 4,
               nfree := sVal h2 20 4, fNbytesName := sVal h2 24 4, fUnits := uVal h2 28 1,
               fCompress := sVal h2 29 4, fSeekInfo := sVal h2 33 8, fNbytesInfo := sVal h2 41 4,
               fUUID := sliceN h2 45 18 }, sVal h1 8 4)

/-! ## Streamed record family (structure.py lines 284-364) -/

/-- Fields of `TObject.read`: its envelope plus the `>HII` header. -/
structure TObjectData where
  streamed : TStreamedData
  whatsthis : Nat
  fBits : Nat
  fUniqueID : Nat
deriving Repr, DecidableEq, Inhabited

/-- Body of `TObject.read` as run for `TObject` or any subclass: one
envelope (from `super().read`) then the `>HII` fields.  The
`type(self) is TObject` end check is applied by `TObject.read` only. -/
def TObject.readBase (b : Bytes) (offset : Int) : Except String (TObjectData × Int) :=
  match TStreamed.readBase b offset with
  | .error e => .error e
  | .ok (s, off1) =>
    match readRaw b off1 10 with
    | none => .error "struct.error"
    | some (raw, off2) =>
      .ok ({ streamed := s, whatsthis := uVal raw 0 2, fBits := uVal raw 2 4,
             fUniqueID := uVal raw 6 4 }, off2)

/-- `TObject.read` on a plain `TObject` instance: fields then the envelope
end check. -/
def TObject.read (b : Bytes) (offset : Int) : Except String (TObjectData × Int) :=
  match TObject.readBase b offset with
  | .error e => .error e
  | .ok (o, off) =>
    match TStreamed.check o.streamed off with
    | .error e => .error e
    | .ok _ => .ok (o, off)

structure TNamedData where
  obj : TObjectData
  fName : Bytes
  fTitle : Bytes
deriving Repr, DecidableEq, Inhabited

/-- `TNamed.read` on a plain `TNamed` instance: `TObject` fields, then the
`NameTitle` pair of strings, then the envelope end check. -/
def TNamed.read (b : Bytes) (offset : Int) : Except String (TNamedData × Int) :=
  match TObject.readBase b offset with
  | .error e => .error e
  | .ok (o, off1) =>
    match TString.readstring b off1 with
    | none => .error "struct.error"
    | some (nm, off2) =>
      match TString.readstring b off2 with
      | none => .error "struct.error"
      | some (tl, off3) =>
        match TStreamed.check o.streamed off3 with
        | .error e => .error e
        | .ok _ => .ok ({ obj := o, fName := nm, fTitle := tl }, off3)

structure TAttLineData where
  streamed : TStreamedData
  fLineColor : Int
  fLineStyle : Int
  fLineWidth : Int
deriving Repr, DecidableEq, Inhabited

/-- `TAttLine.read`: envelope, a check that the envelope version is 2,
the `>hhh` fields, then the end check. -/
def TAttLine.read (b : Bytes) (offset : Int) : Except String (TAttLineData × Int) :=
  match TStreamed.readBase b offset with
  | .error e => .error e
  | .ok (s, off1) =>
    if s.fVersion ≠ 2 then .error "Unrecognized TAttLine version"
    else
      match readRaw b off1 6 with
      | none => .error "struct.error"
      | some (raw, off2) =>
        match TStreamed.check s off2 with
        | .error e => .error e
        | .ok _ =>
          .ok ({ streamed := s, fLineColor := sVal raw 0 2, fLineStyle := sVal raw 2 2,
                 fLineWidth := sVal raw 4 2 }, off2)

/-- The 17 values unpacked by `TTree.header_v20` (`>qqqqqdiiiiIqqqqqq`).
`dict(zip(...))` stops at the shorter sequence, so only the first 17 of
the 27 listed field names receive a value.  The `d` (double) field is
kept as its raw 64-bit pattern: nothing in the source interprets it. -/
structure TTreeV20 where
  fEntries : Int
  fTotBytes : Int
  fZipBytes : Int
  fSavedBytes : Int
  fFlushedBytes : Int
  fWeightBits : Nat
  fTimerInterval : Int
  fScanField : Int
  fUpdate : Int
  fDefaultEntryOffsetLen : Int
  fNClusterRange : Nat
  fMaxEntries : Int
  fMaxEntryLoop : Int
  fMaxVirtualSize : Int
  fAutoSave : Int
  fAutoFlush : Int
  fEstimate : Int
deriving Repr, DecidableEq, Inhabited

structure TTreeData where
  streamed : TStreamedData
  named : TNamedData
  attline : TAttLineData
  super3 : TStreamedData
  super4 : TStreamedData
  v20 : TTreeV20
deriving Repr, DecidableEq, Inhabited

/-- `TTree.read`: own envelope, the four super sections in the order of
`TTree.supers` (`TNamed`, `TAttLine`, two plain `TStreamed`), then the
version-20 numeric block; any other envelope version is fatal.  The source
never calls `check` for the `TTree` envelope itself. -/
def TTree.read (b : Bytes) (offset : Int) : Except String (TTreeData × Int) :=
  match TStreamed.readBase b offset with
  | .error e => .error e
  | .ok (s, off1) =>
    match TNamed.read b off1 with
    | .error e => .error e
    | .ok (nm, off2) =>
      match TAttLine.read b off2 with
      | .error e => .error e
      | .ok (al, off3) =>
        match TStreamed.read b off3 with
        | .error e => .error e
        | .ok (p1, off4) =>
          match TStreamed.read b off4 with
          | .error e => .error e
          | .ok (p2, off5) =>
            if s.fVersion = 20 then
              match readRaw b off5 116 with
              | none => .error "struct.error"
              | some (raw, off6) =>
                .ok ({ streamed := s, named := nm, attline := al, super3 := p1, super4 := p2,
                       v20 := { fEntries := sVal raw 0 8, fTotBytes := sVal raw 8 8,
                                fZipBytes := sVal raw 16 8, fSavedBytes := sVal raw 24 8,
                                fFlushedBytes := sVal raw 32 8, fWeightBits := uVal raw 40 8,
                                fTimerInterval := sVal raw 48 4, fScanField := sVal raw 52 4,
                                fUpdate := sVal raw 56 4, fDefaultEntryOffsetLen := sVal raw 60 4,
                                fNClusterRange := uVal raw 64 4, fMaxEntries := sVal raw 68 8,
                                fMaxEntryLoop := sVal raw 76 8, fMaxVirtualSize := sVal raw 84 8,
                                fAutoSave := sVal raw 92 8, fAutoFlush := sVal raw 100 8,
                                fEstimate := sVal raw 108 8 } }, off6)
            else .error "Unknown TTree class version"

/-! ## TKey (structure.py lines 117-153) -/

/-- Fields of a `KeyRecord`.  `object` mirrors the `data['object']` entry
that `ROOTFile.__getitem__` stores into an already-parsed key (line 103 of
rootfile.py); it is `none` straight after `TKey.read`. -/
structure TKeyData where
  fNbytes : Int
  fVersion : Int
  fObjlen : Int
  fDatime : Nat
  fKeylen : Int
  fCycle : Int
  fSeekKey : Int
  fSeekPdir : Int
  fClassName : Bytes
  fName : Bytes
  fTitle : Bytes
  object : Option TTreeData := none
deriving Repr, DecidableEq, Inhabited

/-- `TKey.minsize()`: the size of the `>ihiIhh` first header. -/
def TKey.minsize : Int := 18

/-- The branch condition of `TKey.read` line 130: 32-bit seek fields when
`fVersion < 1000`, 64-bit otherwise. -/
def TKey.useSmall (v : Int) : Bool := v < 1000

/-- `TKey.read` without its final framing assertion: `>ihiIhh`, the
version-branched seek pair, then the three length-prefixed strings. -/
def TKey.readFields (b : Bytes) (offset : Int) : Except String (TKeyData × Int) :=
  match readRaw b offset 18 with
  | none => .error "struct.error"
  | some (raw, off1) =>
    let fVersion := sVal raw 4 2
    let seeks :=
      if TKey.useSmall fVersion then
        match readRaw b off1 8 with
        | none => Except.error "struct.error"
        | some (sk, off2) => Except.ok ((sVal sk 0 4, sVal sk 4 4), off2)
      else
        match readRaw b off1 16 with
        | none => Except.error "struct.error"
        | some (sk, off2) => Except.ok ((sVal sk 0 8, sVal sk 8 8), off2)
    match seeks with
    | .error e => .error e
    | .ok ((fSeekKey, fSeekPdir), off2) =>
      match TString.readstring b off2 with
      | none => .error "struct.error"
      | some (cls, off3) =>
        match TString.readstring b off3 with
        | none => .error "struct.error"
        | some (nm, off4) =>
          match TString.readstring b off4 with
          | none => .error "struct.error"
          | some (tl, off5) =>
            .ok ({ fNbytes := sVal raw 0 4, fVersion := fVersion, fObjlen := sVal raw 6 4,
                   fDatime := uVal raw 10 4, fKeylen := sVal raw 14 2, fCycle := sVal raw 16 2,
                   fSeekKey := fSeekKey, fSeekPdir := fSeekPdir,
                   fClassName := cls, fName := nm, fTitle := tl, object := none }, off5)

/-- `TKey.read` line 139: the framing assertion
`start + fKeylen == offset` is checked after the header is parsed. -/
def TKey.read (b : Bytes) (offset : Int) : Except String (TKeyData × Int) :=
  match TKey.readFields b offset with
  | .error e => .error e
  | .ok (k, off) =>
    if offset + k.fKeylen ≠ off then
      .error ("Read fewer bytes from TKey (" ++ toString (off - offset) ++
              ") than expected (" ++ toString k.fKeylen ++ ")")
    else .ok (k, off)

/-- `TKey.compressed`: true when the on-disk byte count is smaller than
header length plus uncompressed object length. -/
def TKeyData.compressed (k : TKeyData) : Bool := k.fNbytes < k.fKeylen + k.fObjlen

/-- `TKey.namecycle`: the qualified identity `b"%s;%d" % (fName, fCycle)`;
byte 59 is the semicolon. -/
def TKeyData.namecycle (k : TKeyData) : Bytes := k.fName ++ [59] ++ intDec k.fCycle

/-! ## TKeyList (structure.py lines 156-194) -/

/-- State of a `TKeyList`: the head key, the declared count, the `_keys`
dict (`"name;cycle"` to record), the `_lastcycle` dict (plain name to
highest cycle recorded so far) and the optional trailing blob.  `parsed`
is a ghost trace of the records the loop inserted, in order; it shadows
no observable of the source and is used only to state properties of the
loop. -/
structure TKeyListData where
  headkey : TKeyData
  nKeys : Int
  keys : List (Bytes × TKeyData)
  lastcycle : List (Bytes × Int)
  trailings : Option Bytes
  parsed : List TKeyData
deriving Repr, DecidableEq, Inhabited

/-- The `_keys` update of line 175: `self._keys[key.namecycle] = key`. -/
def kStep (m : List (Bytes × TKeyData)) (k : TKeyData) : List (Bytes × TKeyData) :=
  aset m k.namecycle k

/-- The `_lastcycle` update of lines 176-177:
`if self._lastcycle.get(key.fName, -1) < key.fCycle: ...`. -/
def lcStep (m : List (Bytes × Int)) (k : TKeyData) : List (Bytes × Int) :=
  if ((List.lookup k.fName m).getD (-1)) < k.fCycle then aset m k.fName k.fCycle else m

/-- Body of the loop at lines 175-177: record a freshly parsed key in the
`_keys` and `_lastcycle` dicts (and in the ghost trace). -/
def TKeyList.insertKey (st : TKeyListData) (k : TKeyData) : TKeyListData :=
  { st with
    keys := kStep st.keys k,
    lastcycle := lcStep st.lastcycle k,
    parsed := st.parsed ++ [k] }

/-- The `_keys` dict produced by inserting a list of parsed keys in order
into an empty dict. -/
def buildKeys (ks : List TKeyData) : List (Bytes × TKeyData) := ks.foldl kStep []

/-- The `_lastcycle` dict produced by the same insertion sequence. -/
def buildLC (ks : List TKeyData) : List (Bytes × Int) := ks.foldl lcStep []

/-- The `while offset < end and len(self._keys) < nkeys` loop of
`TKeyList.read`.  The Python loop can fail to terminate on adversarial
buffers (a negative extended string length can move the cursor backward,
repeating states forever), so the embedding carries explicit fuel;
`TKeyList.read` passes fuel larger than the iteration count of any
terminating run on its buffer, and a `.ok` result always coincides with a
terminating run of the source. -/
def TKeyList.readKeys (b : Bytes) (endOff nkeys : Int) :
    Nat → TKeyListData → Int → Except String (TKeyListData × Int)
  | 0, _, _ => .error "loop fuel exhausted"
  | fuel + 1, st, offset =>
    if offset < endOff ∧ ((st.keys.length : Int) < nkeys) then
      match TKey.read b offset with
      | .error e => .error e
      | .ok (k, off') => TKeyList.readKeys b endOff nkeys fuel (TKeyList.insertKey st k) off'
    else .ok (st, offset)

/-- Lines 168-177 of `TKeyList.read`: head key, declared end, declared
count, then the bounded loop.  Returns the state after the loop, the
cursor after the loop and the declared end. -/
def TKeyList.readCore (b : Bytes) (offset : Int) :
    Except String (TKeyListData × Int × Int) :=
  match TKey.read b offset with
  | .error e => .error e
  | .ok (hk, off1) =>
    match readRaw b off1 4 with
    | none => .error "struct.error"
    | some (nkb, off2) =>
      match TKeyList.readKeys b (off1 + hk.fObjlen) (toSigned 32 (beVal nkb))
          (2 * b.length + 2)
          { headkey := hk, nKeys := toSigned 32 (beVal nkb), keys := [], lastcycle := [],
            trailings := none, parsed := [] } off2 with
      | .error e => .error e
      | .ok (st, off3) => .ok (st, off3, off1 + hk.fObjlen)

/-- `TKeyList.read` lines 178-183: after the loop the parsed count must
equal the declared count, and bytes left before the declared end are
retained as the trailing blob with the cursor moved to the end. -/
def TKeyList.read (b : Bytes) (offset : Int) : Except String (TKeyListData × Int) :=
  match TKeyList.readCore b offset with
  | .error e => .error e
  | .ok (st, off3, endOff) =>
    if (st.keys.length : Int) ≠ st.nKeys then
      .error ("Expected to read " ++ toString st.nKeys ++ " keys but got " ++
              toString st.keys.length)
    else if off3 < endOff then
      .ok ({ st with trailings := some (pySliceIx b off3 endOff) }, endOff)
    else .ok (st, off3)

/-- The key-name resolution of `TKeyList.__getitem__` lines 192-193: a
name present in `_keys` is used as is; otherwise it is qualified with the
`_lastcycle` entry for it (whose absence is a Python `KeyError`). -/
def TKeyList.resolve (st : TKeyListData) (keyname : Bytes) : Except String Bytes :=
  if (List.lookup keyname st.keys).isSome then .ok keyname
  else
    match List.lookup keyname st.lastcycle with
    | none => .error "KeyError"
    | some c => .ok (keyname ++ [59] ++ intDec c)

/-- `TKeyList.__getitem__`: resolve, then look the resolved identity up in
`_keys` (absence again a `KeyError`). -/
def TKeyList.getitem (st : TKeyListData) (keyname : Bytes) : Except String TKeyData :=
  match TKeyList.resolve st keyname with
  | .error e => .error e
  | .ok kn =>
    match List.lookup kn st.keys with
    | some k => .ok k
    | none => .error "KeyError"

/-! ## TDirectory (structure.py lines 197-215) -/

structure TDirectoryData where
  fName : Bytes
  fTitle : Bytes
  fVersion : Int
  fDatimeC : Nat
  fDatimeM : Nat
  fNbytesKeys : Int
  fNbytesName : Int
  fSeekDir : Int
  fSeekParent : Int
  fSeekKeys : Int
deriving Repr, DecidableEq, Inhabited

/-- The branch condition of `TDirectory.read` line 206: 32-bit seek fields
when `fVersion < 1000`, 64-bit otherwise. -/
def TDirectory.useSmall (v : Int) : Bool := v < 1000

/-- `TDirectory.read`: the `NameTitle` string pair, the `>hIIii` header,
then the version-branched seek triple (`>iii` small / `>qqq` big). -/
def TDirectory.read (b : Bytes) (offset : Int) : Except String (TDirectoryData × Int) :=
  match TString.readstring b offset with
  | none => .error "struct.error"
  | some (nm, offn) =>
    match TString.readstring b offn with
    | none => .error "struct.error"
    | some (tl, off0) =>
      match readRaw b off0 18 with
      | none => .error "struct.error"
      | some (raw, off1) =>
        let fVersion := sVal raw 0 2
        if TDirectory.useSmall fVersion then
          match readRaw b off1 12 with
          | none => .error "struct.error"
          | some (sk, off2) =>
            .ok ({ fName := nm, fTitle := tl, fVersion := fVersion,
                   fDatimeC := uVal raw 2 4, fDatimeM := uVal raw 6 4,
                   fNbytesKeys := sVal raw 10 4, fNbytesName := sVal raw 14 4,
                   fSeekDir := sVal sk 0 4, fSeekParent := sVal sk 4 4,
                   fSeekKeys := sVal sk 8 4 }, off2)
        else
          match readRaw b off1 24 with
          | none => .error "struct.error"
          | some (sk, off2) =>
            .ok ({ fName := nm, fTitle := tl, fVersion := fVersion,
                   fDatimeC := uVal raw 2 4, fDatimeM := uVal raw 6 4,
                   fNbytesKeys := sVal raw 10 4, fNbytesName := sVal raw 14 4,
                   fSeekDir := sVal sk 0 8, fSeekParent := sVal sk 8 8,
                   fSeekKeys := sVal sk 16 8 }, off2)

/-! ## Compression (structure.py lines 218-281) -/

/-- The external decompression libraries and the xxhash digest, abstract
collaborators of the compression subsystem. -/
structure ExtFuns where
  zlibD : Bytes → Bytes
  lzmaD : Bytes → Bytes
  lz4D : Bytes → Nat → Bytes
  xxh64 : Bytes → Nat
/-- The argument of `Compression.decompressor` is either an algorithm id
or a two-byte codec tag. -/
inductive CompressArg where
  | int (i : Int)
  | bytes (b : Bytes)

/-- `Compression.magicmap`: codec tag bytes to algorithm id
(`kZLIB = 1`, `kLZMA = 2`, `kLZ4 = 4`, `kZSTD = 5`). -/
def Compression.magicmap : List (Bytes × Int) :=
  [([90, 76], 1), ([88, 90], 2), ([76, 52], 4), ([90, 83], 5)]

/-- `Compression.decompressor`: resolve a bytes tag through `magicmap`,
then return the codec's decompress function (taking the compressed bytes
and the expected uncompressed size), or raise: `kOldCompressionAlgo` and
`kZSTD` are recognized but unimplemented, anything else is unsupported. -/
def Compression.decompressor (ext : ExtFuns) (fCompress : CompressArg) :
    Except String (Bytes → Nat → Bytes) :=
  let resolved : Except String Int :=
    match fCompress with
    | .int i => .ok i
    | .bytes b =>
      match List.lookup b Compression.magicmap with
      | some i => .ok i
      | none => .error "KeyError"
  match resolved with
  | .error e => .error e
  | .ok i =>
    if i = 1 then .ok (fun bs _ => ext.zlibD bs)
    else if i = 2 then .ok (fun bs _ => ext.lzmaD bs)
    else if i = 3 then .error "NotImplementedError: kOldCompressionAlgo"
    else if i = 4 then .ok (fun bs n => ext.lz4D bs n)
    else if i = 5 then .error "NotImplementedError: kZSTD"
    else .error "Compression not supported"

/-- Fields of a `CompressionHeader` after `read`: the codec tag bytes, the
version byte, the two 3-byte sizes decoded little-endian, and the checksum
entry of the data dict when one was read. -/
structure CompressionHeaderData where
  magic : Bytes
  version : Nat
  compressed_size : Nat
  uncompressed_size : Nat
  checksum : Option Nat
deriving Repr, DecidableEq, Inhabited

/-- `CompressionHeader.decode_size`: append a zero byte and read the four
bytes little-endian (`struct "<I"`), opposite to the rest of the format. -/
def CompressionHeader.decode_size (field : Bytes) : Nat := leVal (field ++ [0])

/-- `CompressionHeader.l4dochecksum` class attribute. -/
def CompressionHeader.l4dochecksum : Bool := true

/-- `CompressionHeader.read`: unpack `>2sB3s3s`, decode the sizes, and —
line 266 — read the 8-byte checksum only when `self.data['magic'] == 'L4'`.
The magic field is a `bytes` value and the literal is a `str`, so in
Python 3 this comparison is false for every input. -/
def CompressionHeader.read (b : Bytes) (offset : Int) :
    Except String (CompressionHeaderData × Int) :=
  match readRaw b offset 9 with
  | none => .error "struct.error"
  | some (raw, off1) =>
    let magic := sliceN raw 0 2
    let version := uVal raw 2 1
    let csize := CompressionHeader.decode_size (sliceN raw 3 3)
    let usize := CompressionHeader.decode_size (sliceN raw 6 3)
    if (PyVal.bytes magic).eq (PyVal.str "L4") then
      match readRaw b off1 8 with
      | none => .error "struct.error"
      | some (ck, off2) =>
        .ok ({ magic := magic, version := version, compressed_size := csize,
               uncompressed_size := usize, checksum := some (uVal ck 0 8) }, off2)
    else
      .ok ({ magic := magic, version := version, compressed_size := csize,
             uncompressed_size := usize, checksum := none }, off1)

/-- `CompressionHeader.decompressor` lines 270-281: the codec function for
the tag bytes, wrapped with the xxhash check only when
`l4dochecksum and self.data['magic'] == 'L4'` — again a bytes-to-str
comparison that is false in Python 3, so the plain
`partial(decompressor, uncompressed_size=...)` path is always taken. -/
def CompressionHeader.decompressor (ext : ExtFuns) (h : CompressionHeaderData) :
    Except String (Bytes → Except String Bytes) :=
  match Compression.decompressor ext (.bytes h.magic) with
  | .error e => .error e
  | .ok d =>
    if CompressionHeader.l4dochecksum && (PyVal.bytes h.magic).eq (PyVal.str "L4") then
      .ok (fun bs =>
        let out := d bs h.uncompressed_size
        match h.checksum with
        | none => .error "KeyError"
        | some ck =>
          if ext.xxh64 out ≠ ck then .error "Checksum mismatch while decompressing"
          else .ok out)
    else .ok (fun bs => .ok (d bs h.uncompressed_size))

/-! ## ROOTFile orchestrator (rootfile.py lines 17-104) -/

/-- The abstract byte-range read of the transport collaborator:
`read(offset, size)` returns the available bytes of `[offset, offset+size)`
of the remote file. -/
def fileRead (file : Bytes) (offset size : Int) : Bytes :=
  (file.drop offset.toNat).take size.toNat

/-- The size of the read appended at line 43 of rootfile.py when the
buffer cannot reach the root key header:
`max(offset + rootkey.minsize() - len(headbytes), self._open_readstep)`. -/
def ROOTFile.firstMore (step : Nat) (offset minsize hlen : Int) : Int :=
  max (offset + minsize - hlen) (step : Int)

/-- The size of the read appended at line 51 of rootfile.py when the
buffer cannot reach the end of the root key's object:
`offset + rootkey.fObjlen - len(headbytes)` — with no floor. -/
def ROOTFile.secondMore (offset objlen hlen : Int) : Int := offset + objlen - hlen

/-- Result of a completed `ROOTFile.open`. -/
structure OpenResult where
  fileheader : TFileData
  rootkey : TKeyData
  rootdir : TDirectoryData
  keyslist : TKeyListData
  warnings : List String
deriving Repr, DecidableEq, Inhabited

/-- `ROOTFile.open` lines 38-58 (after the transport open): the first
speculative STEP read, the file header, the two conditional shortfall
reads with their non-fatal warnings, the root key with its seek cross
check, the root directory, and the exact-length key-list read.  The second
component of the result is the log of `(offset, size)` byte-range read
requests issued, in order. -/
def ROOTFile.openModel (file : Bytes) (step : Nat) :
    Except String (OpenResult × List (Int × Int)) :=
  let hb0 := fileRead file 0 (step : Int)
  match TFile.read hb0 0 with
  | .error e => .error e
  | .ok (fh, off1) =>
    let hlen0 : Int := hb0.length
    let grow1 :=
      if off1 + TKey.minsize > hlen0 then
        let more := ROOTFile.firstMore step off1 TKey.minsize hlen0
        (hb0 ++ fileRead file hlen0 more, [(hlen0, more)],
         ["Readahead too small in file open to reach root key"])
      else (hb0, [], [])
    match grow1 with
    | (hb1, log1, warn1) =>
      match TKey.read hb1 off1 with
      | .error e => .error e
      | .ok (rk, off2) =>
        if rk.fSeekKey ≠ fh.fBEGIN then
          .error "Root directory object not immediately after key"
        else
          let hlen1 : Int := hb1.length
          let grow2 :=
            if off2 + rk.fObjlen > hlen1 then
              let more := ROOTFile.secondMore off2 rk.fObjlen hlen1
              (hb1 ++ fileRead file hlen1 more, [(hlen1, more)],
               ["Readahead too small in file open to reach end of root directory header"])
            else (hb1, [], [])
          match grow2 with
          | (hb2, log2, warn2) =>
            match TDirectory.read hb2 off2 with
            | .error e => .error e
            | .ok (rd, _off3) =>
              let keysbytes := fileRead file rd.fSeekKeys rd.fNbytesKeys
              match TKeyList.read keysbytes 0 with
              | .error e => .error e
              | .ok (kl, _off4) =>
                .ok ({ fileheader := fh, rootkey := rk, rootdir := rd, keyslist := kl,
                       warnings := warn1 ++ warn2 },
                     [((0 : Int), (step : Int))] ++ log1 ++ log2 ++
                       [(rd.fSeekKeys, rd.fNbytesKeys)])

/-- The byte value of `b"TTree"`. -/
def ttreeTag : Bytes := [84, 84, 114, 101, 101]

/-- The class registry `ClassMap`: class-name bytes to decode function. -/
def ClassMap : List (Bytes × (Bytes → Int → Except String (TTreeData × Int))) :=
  [(ttreeTag, TTree.read)]

/-- `ROOTFile.__getitem__` lines 91-104: resolve the name through the key
list, look the class up in the registry, issue the exact-length payload
read, decompress if the key is marked compressed, decode, and store the
decoded object into the looked-up key's data (`key.data['object'] = obj`).
The returned state is the key list with that one record updated. -/
def ROOTFile.getitem (ext : ExtFuns) (file : Bytes) (kl : TKeyListData) (name : Bytes) :
    Except String (TTreeData × TKeyListData) :=
  match TKeyList.resolve kl name with
  | .error e => .error e
  | .ok kn =>
    match List.lookup kn kl.keys with
    | none => .error "KeyError"
    | some k =>
      match List.lookup k.fClassName ClassMap with
      | none => .error "KeyError"
      | some decode =>
        match (if k.compressed then
            match CompressionHeader.read
                (fileRead file (k.fSeekKey + k.fKeylen) (k.fNbytes - k.fKeylen)) 0 with
            | .error e => .error e
            | .ok (ch, off) =>
              match CompressionHeader.decompressor ext ch with
              | .error e => .error e
              | .ok d =>
                d (pySliceIx (fileRead file (k.fSeekKey + k.fKeylen) (k.fNbytes - k.fKeylen))
                    off (fileRead file (k.fSeekKey + k.fKeylen) (k.fNbytes - k.fKeylen)).length)
          else .ok (fileRead file (k.fSeekKey + k.fKeylen) (k.fNbytes - k.fKeylen)) :
            Except String Bytes) with
        | .error e => .error e
        | .ok bs =>
          match decode bs 0 with
          | .error e => .error e
          | .ok (obj, _) =>
            .ok (obj, { kl with keys := aset kl.keys kn { k with object := some obj } })

/-! ## Concrete fixtures -/

/-- Two big-endian bytes of a value below 2^16. -/
def be2 (n : Nat) : Bytes := [n / 256 % 256, n % 256]

/-- Four big-endian bytes of a value below 2^32. -/
def be4 (n : Nat) : Bytes := [n / 16777216 % 256, n / 65536 % 256, n / 256 % 256, n % 256]

/-- A serialized `KeyRecord` with empty class, name and title strings:
`fNbytes = 100`, version 4 (small seek layout), cycle 1.  A correct header
length for it is 29. -/
def key29 (keylen objlen seekKey : Nat) : Bytes :=
  be4 100 ++ be2 4 ++ be4 objlen ++ be4 0 ++ be2 keylen ++ be2 1 ++
    be4 seekKey ++ be4 0 ++ [0, 0, 0]

/-- A serialized `KeyRecord` named `b"h1"` (empty class and title) whose
2-byte cycle field is given raw; its correct header length is 31. -/
def keyH1 (cyc : Bytes) : Bytes :=
  be4 100 ++ be2 4 ++ be4 0 ++ be4 0 ++ be2 31 ++ cyc ++
    be4 0 ++ be4 0 ++ [0] ++ [2, 104, 49] ++ [0]

/-- A serialized `TTree` object: version-20 envelope, `TNamed` section,
`TAttLine` section (version 2), two placeholder streamed sections, and a
zeroed 116-byte version-20 numeric block; 164 bytes in all. -/
def treeObj : Bytes :=
  be4 (0x40000000 + 160) ++ be2 20 ++
    (be4 (0x40000000 + 14) ++ be2 1 ++ List.replicate 10 0 ++ [0, 0]) ++
    (be4 (0x40000000 + 8) ++ be2 2 ++ List.replicate 6 0) ++
    (be4 (0x40000000 + 2) ++ be2 0) ++
    (be4 (0x40000000 + 2) ++ be2 0) ++
    List.replicate 116 0

/-- A serialized `KeyRecord` for that `TTree`: class `b"TTree"`, name
`b"t"`, keylen 35, objlen 164, `fNbytes = 199` (not compressed),
`fSeekKey = 0`. -/
def treeKey : Bytes :=
  be4 199 ++ be2 4 ++ be4 164 ++ be4 0 ++ be2 35 ++ be2 1 ++
    be4 0 ++ be4 0 ++ [5, 84, 84, 114, 101, 101] ++ [1, 116] ++ [0]

/-- A key-list buffer holding the `TTree` key: head key declaring 39
object bytes, count 1, then the tree key. -/
def c8keys : Bytes := key29 29 39 0 ++ be4 1 ++ treeKey

/-- Remote-file content for the `TTree` fetch: the key's 35 header bytes
(as padding) followed by the object bytes at `fSeekKey + fKeylen = 35`. -/
def c8file : Bytes := List.replicate 35 0 ++ treeObj

/-- A 200-byte remote file whose root-key object length (80) overshoots
the 512-byte first read by 9 bytes: file header with `fBEGIN = 100`, the
root key at 100, the root directory at 129 (`fSeekKeys = 161`,
`fNbytesKeys = 33`), and a one-head-key empty key list at 161. -/
def c4file : Bytes :=
  rootMagic ++ be4 4 ++ be4 100 ++ List.replicate 51 0 ++ List.replicate 37 0 ++
    key29 29 80 100 ++
    ([0, 0] ++ be2 4 ++ be4 0 ++ be4 0 ++ be4 33 ++ be4 0 ++ be4 0 ++ be4 0 ++ be4 161) ++
    (key29 29 4 0 ++ be4 0) ++
    List.replicate 6 0

/-- A key list whose single key (29 bytes) runs past the declared end
(head key declares only 20 object bytes). -/
def c6fix : Bytes := key29 29 20 0 ++ be4 1 ++ key29 29 0 0

/-- A key list holding one key named `b"h1"` with cycle -1. -/
def c7fix : Bytes := key29 29 35 0 ++ be4 1 ++ keyH1 [255, 255]

/-- A key list holding keys `b"h1"` at cycles 1 and 2. -/
def c7wit : Bytes := key29 29 66 0 ++ be4 2 ++ keyH1 (be2 1) ++ keyH1 (be2 2)

/-- A key list declaring two keys but holding the same `b"h1"` cycle-1
record twice. -/
def c10fix : Bytes := key29 29 66 0 ++ be4 2 ++ keyH1 (be2 1) ++ keyH1 (be2 1)

/-- A compression header with the LZ4 tag `b"L4"` (version 1, compressed
size 1, uncompressed size 20) followed by an 8-byte checksum. -/
def c1fix : Bytes := [76, 52, 1] ++ [1, 0, 0] ++ [20, 0, 0] ++ [1, 2, 3, 4, 5, 6, 7, 8]

/-- Concrete external functions for exercising the compression wrapper. -/
def extTest : ExtFuns :=
  { zlibD := fun b => b, lzmaD := fun b => b, lz4D := fun _ _ => [9, 9], xxh64 := fun _ => 777 }

/-- A file-header buffer with version 999999 and the 51-byte small second
header exactly present. -/
def c2small : Bytes := rootMagic ++ be4 999999 ++ be4 100 ++ List.replicate 51 0

/-- The same buffer with version 1000000: the big second header would
need 63 bytes, so only 51 are present. -/
def c2big : Bytes := rootMagic ++ be4 1000000 ++ be4 100 ++ List.replicate 51 0

/-- A streamed-envelope header whose size field is 0x80000000: top bit
set, 0x40000000 flag clear. -/
def c3fix : Bytes := [128, 0, 0, 0, 0, 1]

/-- A string whose extended length decodes to -100. -/
def c9fix : Bytes := [255, 255, 255, 255, 156]

/-- A well-formed string: length 2, two content bytes, one spare byte. -/
def strFix : Bytes := [2, 65, 66, 7]

/-- A well-formed streamed-envelope header: size field `0x40000008`,
version 2. -/
def streamFix : Bytes := [64, 0, 0, 8, 0, 2]

/-- A minimal small-layout file header buffer with `fBEGIN = 63`. -/
def tfileFixBuf : Bytes := rootMagic ++ be4 4 ++ be4 63 ++ List.replicate 51 0

/-- Value of a successful decode of a concrete fixture. -/
def okval {α : Type} [Inhabited α] (e : Except String α) : α := e.toOption.getD default

/-- The file header decoded from `tfileFixBuf`. -/
def tfileRec : TFileData := (okval (TFile.read tfileFixBuf 0)).1

/-- The compression header decoded from `c1fix`. -/
def c1hdr : CompressionHeaderData := (okval (CompressionHeader.read c1fix 0)).1

/-- The key record decoded from a well-formed `key29` buffer. -/
def c5key : TKeyData := (okval (TKey.read (key29 29 4 0) 0)).1

/-- The key record fields decoded from a `key29` buffer whose header
length was corrupted from 29 to 30. -/
def c5keyBad : TKeyData := (okval (TKey.readFields (key29 30 4 0) 0)).1

/-- A key-list buffer declaring zero keys (head key with 4 object bytes,
count 0). -/
def c6wbuf : Bytes := key29 29 4 0 ++ be4 0

/-- The key-list state parsed from `c6wbuf`. -/
def c6wstate : TKeyListData := (okval (TKeyList.read c6wbuf 0)).1

/-- The state reached by the parsing loop of `c6wbuf` (before the
post-loop checks). -/
def c6core : TKeyListData := (okval (TKeyList.readCore c6wbuf 0)).1

/-- The state reached by the parsing loop of `c10fix` (before the
post-loop checks): two records consumed, one distinct identity. -/
def c10core : TKeyListData := (okval (TKeyList.readCore c10fix 0)).1

/-- The key-list state parsed from `c7wit` (keys `b"h1"` at cycles 1, 2). -/
def c7state : TKeyListData := (okval (TKeyList.read c7wit 0)).1

/-- The cycle-1 key of `c7state`, fetched by its qualified identity. -/
def c7k1 : TKeyData := okval (TKeyList.getitem c7state [104, 49, 59, 49])

/-- The key-list state parsed from `c8keys`. -/
def c8state : TKeyListData := (okval (TKeyList.read c8keys 0)).1

/-- The object decoded by fetching `b"t"` from `c8file`. -/
def c8obj : TTreeData := (okval (ROOTFile.getitem extTest c8file c8state [116])).1

/-- The key-list state after that fetch. -/
def c8state' : TKeyListData := (okval (ROOTFile.getitem extTest c8file c8state [116])).2

/-- The record stored under `b"t;1"` before and after the fetch. -/
def c8run : Option (TKeyData × TKeyData) := do
  let k1 ← List.lookup [116, 59, 49] c8state.keys
  let k2 ← List.lookup [116, 59, 49] c8state'.keys
  return (k1, k2)

/-! ## Spec-side predicates -/

/-- Cycle numbers of the parsed keys sharing a given name. -/
def cyclesOf (ks : List TKeyData) (s : Bytes) : List Int :=
  (ks.filter (fun k => k.fName == s)).map (fun k => k.fCycle)

/-- The `_lastcycle` running-maximum fold, lifted to a plain fold over a
cycle list starting from an optional current value. -/
def lcFoldOpt (o : Option Int) (cs : List Int) : Option Int :=
  cs.foldl (fun o c => if o.getD (-1) < c then some c else o) o

/-- `c` is the maximum cycle among the parsed keys named `s`. -/
def IsMaxCycle (ks : List TKeyData) (s : Bytes) (c : Int) : Prop :=
  c ∈ cyclesOf ks s ∧ ∀ c' ∈ cyclesOf ks s, c' ≤ c

/-! ## Helper lemmas -/

theorem readRaw_eq {b : Bytes} {offset : Int} {n : Nat} {raw : Bytes} {off1 : Int}
    (h : readRaw b offset n = some (raw, off1)) :
    off1 = offset + n ∧ ∃ eff, structBase b.length offset n = some eff ∧ raw = sliceN b eff n := by
  unfold readRaw at h
  cases hsb : structBase b.length offset n <;> rw [hsb] at h <;> simp_all

theorem declen_ge {b : Bytes} {offset : Int} {L off1 : Int}
    (h : TString.declen b offset = some (L, off1)) : offset ≤ off1 := by
  unfold TString.declen at h
  split at h
  · exact absurd h (by simp)
  next lb o1 h1 =>
    have ho1 := (readRaw_eq h1).1
    split at h
    · split at h
      · exact absurd h (by simp)
      next lb2 o2 h2 =>
        have ho2 := (readRaw_eq h2).1
        simp only [Option.some.injEq, Prod.mk.injEq] at h
        omega
    · simp only [Option.some.injEq, Prod.mk.injEq] at h
      omega

theorem readstring_of_declen {b : Bytes} {offset : Int} {L off1 : Int}
    (h : TString.declen b offset = some (L, off1)) :
    TString.readstring b offset = some (pySliceIx b off1 (off1 + L), off1 + L) := by
  unfold TString.readstring
  rw [h]

/-- The framing consequence of `TKey.read` success, shared by several
claims: the returned cursor is the start offset plus the decoded header
length. -/
theorem tkey_read_offset {b : Bytes} {offset : Int} {k : TKeyData} {off' : Int}
    (h : TKey.read b offset = .ok (k, off')) : off' = offset + k.fKeylen := by
  unfold TKey.read at h
  split at h
  · exact absurd h (by simp)
  next k0 o0 hf =>
    split at h
    · exact absurd h (by simp)
    next hc =>
      simp only [Except.ok.injEq, Prod.mk.injEq] at h
      obtain ⟨hk, ho⟩ := h
      subst hk
      omega

theorem lookup_aset_self {α : Type} (m : List (Bytes × α)) (a : Bytes) (v : α) :
    List.lookup a (aset m a v) = some v := by
  induction m with
  | nil => simp [aset, List.lookup]
  | cons hd tl ih =>
    obtain ⟨b, w⟩ := hd
    by_cases hba : b = a
    · subst hba
      simp [aset, List.lookup]
    · have h1 : (b == a) = false := beq_eq_false_iff_ne.mpr hba
      have h2 : (a == b) = false := beq_eq_false_iff_ne.mpr (Ne.symm hba)
      simp [aset, List.lookup, h1, h2, ih]

theorem lookup_aset_ne {α : Type} (m : List (Bytes × α)) (a c : Bytes) (v : α) (h : c ≠ a) :
    List.lookup c (aset m a v) = List.lookup c m := by
  have hca : (c == a) = false := beq_eq_false_iff_ne.mpr h
  induction m with
  | nil => simp [aset, List.lookup, hca]
  | cons hd tl ih =>
    obtain ⟨b, w⟩ := hd
    by_cases hba : b = a
    · subst hba
      simp [aset, List.lookup, hca]
    · have h1 : (b == a) = false := beq_eq_false_iff_ne.mpr hba
      by_cases hcb : c = b
      · subst hcb
        simp [aset, List.lookup, h1]
      · have h2 : (c == b) = false := beq_eq_false_iff_ne.mpr hcb
        simp [aset, List.lookup, h1, h2, ih]

/-! ## Decimal rendering and qualified identities -/

theorem natDecAux_bounds : ∀ (fuel n : Nat), ∀ x ∈ natDecAux fuel n, 48 ≤ x ∧ x ≤ 57 := by
  intro fuel
  induction fuel with
  | zero => intro n x hx; simp [natDecAux] at hx
  | succ m ih =>
    intro n x hx
    cases n with
    | zero => simp [natDecAux] at hx
    | succ k =>
      simp only [natDecAux, List.mem_cons] at hx
      rcases hx with h | h
      · subst h
        have hlt : (k + 1) % 10 < 10 := Nat.mod_lt _ (by omega)
        omega
      · exact ih _ x h

theorem natDec_bounds : ∀ (n : Nat), ∀ x ∈ natDec n, 48 ≤ x ∧ x ≤ 57 := by
  intro n x hx
  unfold natDec at hx
  split at hx
  · simp at hx
    omega
  · rw [List.mem_reverse] at hx
    exact natDecAux_bounds n n x hx

theorem semi_not_mem_natDec (n : Nat) : (59 : Nat) ∉ natDec n := by
  intro h
  have := natDec_bounds n 59 h
  omega

theorem semi_not_mem_intDec (i : Int) : (59 : Nat) ∉ intDec i := by
  intro h
  unfold intDec at h
  split at h
  · rcases List.mem_cons.mp h with h' | h'
    · omega
    · exact semi_not_mem_natDec _ h'
  · exact semi_not_mem_natDec _ h

theorem semi_mem_namecycle (k : TKeyData) : (59 : Nat) ∈ k.namecycle := by
  simp [TKeyData.namecycle]

theorem natDecAux_eq_digits : ∀ (fuel n : Nat), n ≤ fuel →
    natDecAux fuel n = (Nat.digits 10 n).map (fun d => d + 48) := by
  intro fuel
  induction fuel with
  | zero =>
    intro n hn
    have h0 : n = 0 := by omega
    subst h0
    simp [natDecAux]
  | succ m ih =>
    intro n hn
    cases n with
    | zero => simp [natDecAux]
    | succ k =>
      have hdiv : (k + 1) / 10 ≤ m := by
        have h2 := Nat.div_lt_self (show 0 < k + 1 by omega) (show 1 < 10 by omega)
        omega
      rw [show natDecAux (m + 1) (k + 1) =
            ((k + 1) % 10 + 48) :: natDecAux m ((k + 1) / 10) from rfl]
      rw [ih _ hdiv]
      rw [Nat.digits_def' (by norm_num : 1 < 10) (Nat.succ_pos k)]
      simp

theorem natDec_inj : ∀ {m n : Nat}, natDec m = natDec n → m = n := by
  have key : ∀ n : Nat, n ≠ 0 → natDec 0 = natDec n → False := by
    intro n hn h
    unfold natDec at h
    rw [if_pos rfl, if_neg hn] at h
    rw [natDecAux_eq_digits n n le_rfl] at h
    have hmap : (Nat.digits 10 n).map (fun d => d + 48) = [48] := by
      have h2 := congrArg List.reverse h
      simpa using h2.symm
    have hd : Nat.digits 10 n = [0] := by
      cases hdig : Nat.digits 10 n with
      | nil => rw [hdig] at hmap; simp at hmap
      | cons d tl =>
        rw [hdig] at hmap
        cases tl with
        | nil =>
          simp at hmap
          simp [hmap]
        | cons d2 tl2 => simp at hmap
    have hofd := Nat.ofDigits_digits 10 n
    rw [hd] at hofd
    simp [Nat.ofDigits] at hofd
    exact hn hofd.symm
  intro m n h
  by_cases hm : m = 0 <;> by_cases hn : n = 0
  · omega
  · exact absurd (hm ▸ h) (fun hh => key n hn hh)
  · exact absurd (hn ▸ h.symm) (fun hh => key m hm hh)
  · unfold natDec at h
    rw [if_neg hm, if_neg hn] at h
    rw [natDecAux_eq_digits m m le_rfl, natDecAux_eq_digits n n le_rfl] at h
    have h2 := congrArg List.reverse h
    simp only [List.reverse_reverse] at h2
    have hinj : Function.Injective (fun d : Nat => d + 48) := fun x y hxy =>
      Nat.add_right_cancel hxy
    have h3 : Nat.digits 10 m = Nat.digits 10 n :=
      List.map_injective_iff.mpr hinj h2
    have hm' := Nat.ofDigits_digits 10 m
    have hn' := Nat.ofDigits_digits 10 n
    rw [h3] at hm'
    omega

theorem intDec_inj : ∀ {i j : Int}, intDec i = intDec j → i = j := by
  intro i j h
  unfold intDec at h
  by_cases hi : i < 0 <;> by_cases hj : j < 0
  · rw [if_pos hi, if_pos hj] at h
    simp only [List.cons.injEq] at h
    have := natDec_inj h.2
    omega
  · rw [if_pos hi, if_neg hj] at h
    exfalso
    have hmem : (45 : Nat) ∈ natDec j.toNat := h ▸ List.mem_cons_self _ _
    have := natDec_bounds _ 45 hmem
    omega
  · rw [if_neg hi, if_pos hj] at h
    exfalso
    have hmem : (45 : Nat) ∈ natDec i.toNat := h.symm ▸ List.mem_cons_self _ _
    have := natDec_bounds _ 45 hmem
    omega
  · rw [if_neg hi, if_neg hj] at h
    have := natDec_inj h
    omega

theorem sep_append_inj : ∀ (a b c d : List Nat), (59 : Nat) ∉ a → (59 : Nat) ∉ b →
    a ++ 59 :: b = c ++ 59 :: d → a = c ∧ b = d := by
  intro a
  induction a with
  | nil =>
    intro b c d _ hb h
    cases c with
    | nil => simpa using h
    | cons y ys =>
      simp only [List.nil_append, List.cons_append, List.cons.injEq] at h
      obtain ⟨hy, hrest⟩ := h
      exfalso
      refine hb ?_
      rw [hrest]
      exact List.mem_append.mpr (Or.inr (List.mem_cons_self _ _))
  | cons x xs ih =>
    intro b c d ha hb h
    cases c with
    | nil =>
      simp only [List.nil_append, List.cons_append, List.cons.injEq] at h
      obtain ⟨hx, _⟩ := h
      subst hx
      exact absurd (List.mem_cons_self _ _) ha
    | cons y ys =>
      simp only [List.cons_append, List.cons.injEq] at h
      obtain ⟨hxy, hrest⟩ := h
      subst hxy
      have ha' : (59 : Nat) ∉ xs := fun hm => ha (List.mem_cons_of_mem _ hm)
      obtain ⟨h1, h2⟩ := ih b ys d ha' hb hrest
      exact ⟨by rw [h1], h2⟩

/-! ## The `_keys` and `_lastcycle` dicts as folds over the parsed trace -/

theorem cyclesOf_cons (k : TKeyData) (tl : List TKeyData) (s : Bytes) :
    cyclesOf (k :: tl) s =
      if k.fName = s then k.fCycle :: cyclesOf tl s else cyclesOf tl s := by
  by_cases h : k.fName = s
  · simp [cyclesOf, List.filter_cons, h]
  · simp [cyclesOf, List.filter_cons, beq_eq_false_iff_ne.mpr h, h]

theorem lookup_foldl_lcStep :
    ∀ (ks : List TKeyData) (acc : List (Bytes × Int)) (s : Bytes),
      List.lookup s (ks.foldl lcStep acc) = lcFoldOpt (List.lookup s acc) (cyclesOf ks s) := by
  intro ks
  induction ks with
  | nil => intro acc s; simp [cyclesOf, lcFoldOpt]
  | cons k tl ih =>
    intro acc s
    rw [List.foldl_cons, ih, cyclesOf_cons]
    by_cases hns : k.fName = s
    · rw [if_pos hns]
      have hstep : List.lookup s (lcStep acc k) =
          (if (List.lookup s acc).getD (-1) < k.fCycle then some k.fCycle
           else List.lookup s acc) := by
        unfold lcStep
        rw [hns]
        split
        next hc => exact lookup_aset_self _ _ _
        next hc => rfl
      rw [hstep]
      rfl
    · rw [if_neg hns]
      have hstep : List.lookup s (lcStep acc k) = List.lookup s acc := by
        unfold lcStep
        split
        · exact lookup_aset_ne _ _ _ _ (fun he => hns he.symm)
        · rfl
      rw [hstep]

theorem lcFoldOpt_spec :
    ∀ (cs : List Int) (o : Option Int),
      (lcFoldOpt o cs = o ∨ ∃ m ∈ cs, lcFoldOpt o cs = some m) ∧
      (∀ c ∈ cs, c ≤ (lcFoldOpt o cs).getD (-1)) ∧
      o.getD (-1) ≤ (lcFoldOpt o cs).getD (-1) := by
  intro cs
  induction cs with
  | nil => intro o; exact ⟨Or.inl rfl, by simp, le_refl _⟩
  | cons c tl ih =>
    intro o
    have hstep : lcFoldOpt o (c :: tl) =
        lcFoldOpt (if o.getD (-1) < c then some c else o) tl := rfl
    by_cases hc : o.getD (-1) < c
    · rw [hstep, if_pos hc]
      obtain ⟨hd, hb, hm⟩ := ih (some c)
      refine ⟨?_, ?_, ?_⟩
      · rcases hd with h | ⟨m, hm', he⟩
        · exact Or.inr ⟨c, List.mem_cons_self _ _, h⟩
        · exact Or.inr ⟨m, List.mem_cons_of_mem _ hm', he⟩
      · intro x hx
        rcases List.mem_cons.mp hx with rfl | hx'
        · exact le_trans (by simp) hm
        · exact hb x hx'
      · exact le_trans (le_of_lt hc) (le_trans (by simp) hm)
    · rw [hstep, if_neg hc]
      obtain ⟨hd, hb, hm⟩ := ih o
      refine ⟨?_, ?_, hm⟩
      · rcases hd with h | ⟨m, hm', he⟩
        · exact Or.inl h
        · exact Or.inr ⟨m, List.mem_cons_of_mem _ hm', he⟩
      · intro x hx
        rcases List.mem_cons.mp hx with rfl | hx'
        · exact le_trans (by omega) hm
        · exact hb x hx'

theorem lcFoldOpt_max :
    ∀ (cs : List Int), cs ≠ [] → (∀ c ∈ cs, 0 ≤ c) →
      ∃ m, lcFoldOpt none cs = some m ∧ m ∈ cs ∧ ∀ c ∈ cs, c ≤ m := by
  intro cs hne hpos
  obtain ⟨hd, hb, _⟩ := lcFoldOpt_spec cs none
  rcases hd with h | ⟨m, hm, he⟩
  · exfalso
    obtain ⟨c, hc⟩ := List.exists_mem_of_ne_nil cs hne
    have h1 := hb c hc
    rw [h] at h1
    have h2 := hpos c hc
    simp at h1
    omega
  · refine ⟨m, he, hm, fun c hc => ?_⟩
    have h1 := hb c hc
    rw [he] at h1
    simpa using h1

theorem lookup_foldl_kStep_none :
    ∀ (ks : List TKeyData) (acc : List (Bytes × TKeyData)) (id : Bytes),
      (59 : Nat) ∉ id → List.lookup id acc = none →
      List.lookup id (ks.foldl kStep acc) = none := by
  intro ks
  induction ks with
  | nil => intro acc id _ h; simpa using h
  | cons k tl ih =>
    intro acc id hid hacc
    rw [List.foldl_cons]
    refine ih _ _ hid ?_
    unfold kStep
    rw [lookup_aset_ne _ _ _ _ (fun he => hid (by rw [he]; exact semi_mem_namecycle k))]
    exact hacc

theorem lookup_foldl_kStep_mem :
    ∀ (ks : List TKeyData) (acc : List (Bytes × TKeyData)) (id : Bytes) (k : TKeyData),
      List.lookup id (ks.foldl kStep acc) = some k →
      List.lookup id acc = some k ∨ (k ∈ ks ∧ k.namecycle = id) := by
  intro ks
  induction ks with
  | nil => intro acc id k h; exact Or.inl h
  | cons k0 tl ih =>
    intro acc id k h
    rw [List.foldl_cons] at h
    rcases ih _ _ _ h with h' | ⟨hmem, hnc⟩
    · unfold kStep at h'
      by_cases hinc : id = k0.namecycle
      · subst hinc
        rw [lookup_aset_self] at h'
        simp only [Option.some.injEq] at h'
        subst h'
        exact Or.inr ⟨List.mem_cons_self _ _, rfl⟩
      · rw [lookup_aset_ne _ _ _ _ hinc] at h'
        exact Or.inl h'
    · exact Or.inr ⟨List.mem_cons_of_mem _ hmem, hnc⟩

theorem lookup_foldl_kStep_some :
    ∀ (ks : List TKeyData) (acc : List (Bytes × TKeyData)) (id : Bytes),
      ((∃ k ∈ ks, k.namecycle = id) ∨ (List.lookup id acc).isSome) →
      (List.lookup id (ks.foldl kStep acc)).isSome := by
  intro ks
  induction ks with
  | nil =>
    intro acc id h
    rcases h with ⟨k, hk, _⟩ | h
    · simp at hk
    · simpa using h
  | cons k0 tl ih =>
    intro acc id h
    rw [List.foldl_cons]
    rcases h with ⟨k, hk, hnc⟩ | hacc
    · rcases List.mem_cons.mp hk with rfl | hk'
      · refine ih _ _ (Or.inr ?_)
        unfold kStep
        rw [← hnc, lookup_aset_self]
        simp
      · exact ih _ _ (Or.inl ⟨k, hk', hnc⟩)
    · refine ih _ _ (Or.inr ?_)
      unfold kStep
      by_cases hin : id = k0.namecycle
      · subst hin
        rw [lookup_aset_self]
        simp
      · rw [lookup_aset_ne _ _ _ _ hin]
        exact hacc

/-- Through the parsing loop, the `_keys` and `_lastcycle` dicts remain
exactly the fold of the respective dict updates over the trace of parsed
keys. -/
theorem readKeys_consistent :
    ∀ (b : Bytes) (endOff nkeys : Int) (fuel : Nat) (st : TKeyListData) (off : Int)
      (st' : TKeyListData) (off' : Int),
      TKeyList.readKeys b endOff nkeys fuel st off = .ok (st', off') →
      st.keys = buildKeys st.parsed → st.lastcycle = buildLC st.parsed →
      st'.keys = buildKeys st'.parsed ∧ st'.lastcycle = buildLC st'.parsed := by
  intro b endOff nkeys fuel
  induction fuel with
  | zero => intro st off st' off' h _ _; exact Except.noConfusion h
  | succ n ih =>
    intro st off st' off' h h1 h2
    unfold TKeyList.readKeys at h
    split at h
    · split at h
      · exact Except.noConfusion h
      next k o2 hk2 =>
        refine ih _ _ _ _ h ?_ ?_
        · show kStep st.keys k = buildKeys (st.parsed ++ [k])
          rw [h1]
          unfold buildKeys
          rw [List.foldl_append]
          rfl
        · show lcStep st.lastcycle k = buildLC (st.parsed ++ [k])
          rw [h2]
          unfold buildLC
          rw [List.foldl_append]
          rfl
    · simp only [Except.ok.injEq, Prod.mk.injEq] at h
      obtain ⟨hs, _⟩ := h
      subst hs
      exact ⟨h1, h2⟩

/-- A successful `TKeyList.read` leaves the two dicts equal to the folds
over the parsed trace. -/
theorem read_consistent :
    ∀ (b : Bytes) (offset : Int) (st : TKeyListData) (ret : Int),
      TKeyList.read b offset = .ok (st, ret) →
      st.keys = buildKeys st.parsed ∧ st.lastcycle = buildLC st.parsed := by
  intro b offset st ret h
  unfold TKeyList.read at h
  split at h
  · exact Except.noConfusion h
  next st0 off3 endOff hcore =>
    unfold TKeyList.readCore at hcore
    split at hcore
    · exact Except.noConfusion hcore
    next hk off1 hkread =>
      split at hcore
      · exact Except.noConfusion hcore
      next nkb off2 hraw =>
        split at hcore
        · exact Except.noConfusion hcore
        next stL offL hloop =>
          simp only [Except.ok.injEq, Prod.mk.injEq] at hcore
          obtain ⟨hst0, hoff3, hend⟩ := hcore
          subst hst0
          subst hoff3
          subst hend
          have hcons := readKeys_consistent _ _ _ _ _ _ _ _ hloop rfl rfl
          split at h
          · exact Except.noConfusion h
          next hneq =>
            split at h
            next hlt =>
              simp only [Except.ok.injEq, Prod.mk.injEq] at h
              obtain ⟨hst, _⟩ := h
              subst hst
              exact hcons
            next hnlt =>
              simp only [Except.ok.injEq, Prod.mk.injEq] at h
              obtain ⟨hst, _⟩ := h
              subst hst
              exact hcons

/-! ## Claim theorems -/

/-- C1: the claim is right and the code is wrong.  On a payload whose
codec tag is `b"L4"`, `CompressionHeader.read` returns `offset + 9` — it
never consumes the 8-byte checksum, because line 266 compares the `bytes`
tag with the `str` literal `'L4'`, which is false in Python 3 — and the
function returned by `CompressionHeader.decompressor` performs no checksum
comparison at all: here the decompressed output `[9, 9]` hashes to 777,
no stored checksum exists, and the output is returned without error. -/
theorem c1_lz4_checksum_dead :
    CompressionHeader.read c1fix 0 = .ok (c1hdr, 9) ∧
    c1hdr.magic = [76, 52] ∧
    c1hdr.checksum = none ∧
    (CompressionHeader.decompressor extTest c1hdr).map (fun f => f [1, 2, 3]) =
      .ok (.ok [9, 9]) ∧
    extTest.xxh64 [9, 9] = 777 := by
  decide

/-- C2 counterexample: the claim says version 999,999 selects the small
layout in every one of the three record types, and that 999,999 and
1,000,000 select different layouts; but the seek-layout branch condition
of `TKey.read` (line 130) and `TDirectory.read` (line 206) is
`fVersion < 1000`, so 999,999 selects the big layout there and both
versions select the same layout. -/
theorem c2_counterexample :
    TKey.useSmall 999999 = false ∧
    TDirectory.useSmall 999999 = false ∧
    TKey.useSmall 999999 = TKey.useSmall 1000000 ∧
    TDirectory.useSmall 999999 = TDirectory.useSmall 1000000 := by
  decide

/-- C2 amended: `TFile.read` branches exactly at 1,000,000 (999,999
selects the 51-byte small second header, 1,000,000 the 63-byte big one:
on a buffer with exactly 51 bytes after the first header the small decode
succeeds and the big decode fails), while `TKey.read` and
`TDirectory.read` branch exactly at 1,000 (999 small, 1000 big). -/
theorem c2_version_thresholds :
    (TFile.useSmall 999999 = true ∧ TFile.useSmall 1000000 = false ∧
     (TFile.read c2small 0).isOk = true ∧ TFile.read c2big 0 = .error "struct.error") ∧
    (TKey.useSmall 999 = true ∧ TKey.useSmall 1000 = false) ∧
    (TDirectory.useSmall 999 = true ∧ TDirectory.useSmall 1000 = false) := by
  decide

/-- C3 counterexample: the claim says `TStreamed.read` raises the
unsupported-legacy-layout error iff the top (most significant) bit of the
size field is clear; on `c3fix` the size field is `0x80000000`, whose top
bit (bit 31) is set, yet the read raises that error — the flag the code
tests is `0x40000000` (bit 30). -/
theorem c3_counterexample :
    TStreamed.read c3fix 0 = .error "Unsupported streamer version" ∧
    Nat.testBit (uVal c3fix 0 4) 31 = true ∧
    uVal c3fix 0 4 &&& 0x40000000 = 0 := by
  decide

/-- C4 counterexample: opening the 200-byte `c4file` with STEP 512 issues
the read log `[(0, 512), (200, 9), (161, 33)]`: the read appended when the
buffer does not reach the end of the root key's declared object length
requests 9 bytes — exactly the shortfall, below STEP = 512, contradicting
the claim that every appended read requests at least STEP. -/
theorem c4_counterexample :
    (ROOTFile.openModel c4file 512).map (fun r => r.2) =
      .ok [(0, 512), (200, 9), (161, 33)] ∧
    (9 : Int) < 512 := by
  decide

/-- C6 counterexample: on `c6fix` the head key ends at 29 and declares 20
object bytes, so the declared end is 49; the single key parsed from
offset 33 ends at 62, past the declared end, and `TKeyList.read` returns
offset 62 — not the declared end — contradicting the claim that on
success the returned offset equals the declared end. -/
theorem c6_counterexample :
    (TKeyList.read c6fix 0).map
        (fun r => (r.1.headkey.fKeylen, r.1.headkey.fObjlen, r.1.trailings, r.2)) =
      .ok (29, 20, none, 62) ∧
    (62 : Int) ≠ 0 + 29 + 20 := by
  decide

/-- C7 counterexample: `c7fix` parses into a key directory whose only key
is named `b"h1"` with cycle -1 (so the maximum cycle among keys of that
name is -1), yet lookup of the plain name `b"h1"` fails with a KeyError
instead of returning that key: the `_lastcycle` update at line 176 uses
default -1, which a cycle of -1 never exceeds, so the max-cycle index
never learns the name. -/
theorem c7_counterexample :
    (TKeyList.read c7fix 0).map
        (fun r => (r.1.parsed.map (fun k => (k.fName, k.fCycle)), r.1.lastcycle,
                   (TKeyList.getitem r.1 [104, 49]).isOk)) =
      .ok ([([104, 49], -1)], [], false) := by
  decide

/-- C8 counterexample: after `c8keys` is parsed, fetching `b"t"` through
the orchestrator mutates the very KeyRecord it looked up: the record
stored under `b"t;1"` had no `object` entry before the fetch and has one
after it (rootfile.py line 103, `key.data['object'] = obj`), so the
record is not left unchanged. -/
theorem c8_counterexample :
    c8run.map (fun p => (p.1.object.isNone, p.2.object.isSome, p.1 == p.2)) =
      some (true, true, false) := by
  decide

/-- C9 counterexample: the claim says every call of `TString.readstring`
that returns normally returns an offset at least the input offset, for
every possible length prefix; on `c9fix` (extended length -100) the call
returns normally with offset -95, strictly below the input offset 0. -/
theorem c9_counterexample :
    TString.readstring c9fix 0 = some ([], -95) ∧ (-95 : Int) < 0 := by
  decide

/-- C10: the parsed-key count of `TKeyList.read` is the size of the
`_keys` dict, keyed by `"name;cycle"`: on `c10fix` the loop consumes
exactly the declared two KeyRecords (ghost trace length 2), but both
share identity `b"h1;1"`, the dict retains one entry, and the read raises
the count-mismatch error. -/
theorem c10_duplicate_identity :
    (TKeyList.readCore c10fix 0).map
        (fun r => (r.1.parsed.length, r.1.keys.length, r.1.nKeys)) = .ok (2, 1, 2) ∧
    TKeyList.read c10fix 0 = .error "Expected to read 2 keys but got 1" := by
  decide

/-- C3 amended: `TStreamed.read` raises the unsupported-legacy-layout
error iff the `0x40000000` flag (bit 30, not the top bit) of the 4-byte
size field is clear; when that flag is set, the remaining value (the size
field minus the flag) is the byte length of the section measured from just
after the size field, and the computed end offset is offset-after-size-field
plus that length. -/
theorem c3_size_flag :
    ∀ (b : Bytes) (offset : Int) (raw : Bytes) (off1 : Int),
      readRaw b offset 6 = some (raw, off1) →
      ((TStreamed.read b offset = .error "Unsupported streamer version") ↔
        uVal raw 0 4 &&& 0x40000000 = 0) ∧
      (uVal raw 0 4 &&& 0x40000000 ≠ 0 →
        TStreamed.read b offset =
          .ok ({ fSize := uVal raw 0 4 - 0x40000000, fVersion := uVal raw 4 2,
                 endOff := offset + 4 + ((uVal raw 0 4 - 0x40000000 : Nat) : Int) },
               offset + 4 + ((uVal raw 0 4 - 0x40000000 : Nat) : Int))) := by
  intro b offset raw off1 h
  have ho1 := (readRaw_eq h).1
  have hrw : TStreamed.readBase b offset =
      (if uVal raw 0 4 &&& 0x40000000 = 0 then .error "Unsupported streamer version"
       else .ok ({ fSize := uVal raw 0 4 - 0x40000000, fVersion := uVal raw 4 2,
                   endOff := off1 + ((uVal raw 0 4 - 0x40000000 : Nat) : Int) - 2 },
                 off1)) := by
    unfold TStreamed.readBase
    rw [h]
  have hend : off1 + ((uVal raw 0 4 - 0x40000000 : Nat) : Int) - 2 =
      offset + 4 + ((uVal raw 0 4 - 0x40000000 : Nat) : Int) := by
    omega
  constructor
  · constructor
    · intro he
      by_contra hne
      unfold TStreamed.read at he
      rw [hrw, if_neg hne] at he
      simp at he
    · intro h0
      unfold TStreamed.read
      rw [hrw, if_pos h0]
  · intro hne
    unfold TStreamed.read
    rw [hrw, if_neg hne, hend]

/-- C3 witness: the amended theorem applied to a concrete well-formed
envelope header. -/
theorem c3_size_flag_witness :
    TStreamed.read streamFix 0 = .ok ({ fSize := 8, fVersion := 2, endOff := 12 }, 12) := by
  have h := (c3_size_flag streamFix 0 streamFix 6 (by decide)).2 (by decide)
  rw [h]
  decide

/-- C4 amended: in `ROOTFile.open`, the read appended when the buffer
cannot reach the minimum KeyRecord header size requests
`max(shortfall, STEP)` bytes — at least the shortfall and never less than
STEP — while the read appended when the buffer cannot reach the end of the
root key's declared object length requests exactly the shortfall, with no
STEP floor. -/
theorem c4_readahead_sizes :
    ∀ (step : Nat) (offset minsize hlen objlen : Int),
      (hlen < offset + minsize →
        (step : Int) ≤ ROOTFile.firstMore step offset minsize hlen ∧
        offset + minsize - hlen ≤ ROOTFile.firstMore step offset minsize hlen) ∧
      (hlen < offset + objlen →
        ROOTFile.secondMore offset objlen hlen = offset + objlen - hlen) := by
  intro step offset minsize hlen objlen
  exact ⟨fun _ => ⟨le_max_right _ _, le_max_left _ _⟩, fun _ => rfl⟩

/-- C4 witness: the amended theorem applied to the shortfalls realized by
`c4file` (first branch hypothetical values, second branch the real ones). -/
theorem c4_readahead_sizes_witness :
    ((512 : Int) ≤ ROOTFile.firstMore 512 63 18 50 ∧
      (63 : Int) + 18 - 50 ≤ ROOTFile.firstMore 512 63 18 50) ∧
    ROOTFile.secondMore 129 80 200 = 129 + 80 - 200 :=
  ⟨(c4_readahead_sizes 512 63 18 50 80).1 (by decide),
   (c4_readahead_sizes 512 129 18 200 80).2 (by decide)⟩

/-- C5: whenever `TKey.read` returns normally, the returned offset minus
the start offset equals the decoded `fKeylen`; and whenever the offset
reached after parsing the fixed header, the seek fields and the three
strings differs from start plus `fKeylen`, `TKey.read` raises the framing
error instead of returning. -/
theorem c5_tkey_framing :
    ∀ (b : Bytes) (offset : Int) (k : TKeyData) (off' : Int),
      (TKey.read b offset = .ok (k, off') → off' - offset = k.fKeylen) ∧
      (TKey.readFields b offset = .ok (k, off') → off' ≠ offset + k.fKeylen →
        ∃ e, TKey.read b offset = .error e) := by
  intro b offset k off'
  refine ⟨fun h => ?_, fun hf hne => ?_⟩
  · have := tkey_read_offset h
    omega
  · refine ⟨"Read fewer bytes from TKey (" ++ toString (off' - offset) ++
        ") than expected (" ++ toString k.fKeylen ++ ")", ?_⟩
    have hc : offset + k.fKeylen ≠ off' := by omega
    unfold TKey.read
    rw [hf]
    simp [hc]

/-- C5 witness: a well-formed key record satisfies the framing equation;
corrupting `fKeylen` by one makes `TKey.read` fail. -/
theorem c5_tkey_framing_witness :
    ((29 : Int) - 0 = c5key.fKeylen) ∧ (∃ e, TKey.read (key29 30 4 0) 0 = .error e) :=
  ⟨(c5_tkey_framing (key29 29 4 0) 0 c5key 29).1 (by decide),
   (c5_tkey_framing (key29 30 4 0) 0 c5keyBad 29).2 (by decide) (by decide)⟩

/-- C9 amended: `TString.readstring` returns an offset at least the input
offset whenever the decoded length prefix is nonnegative (a negative
extended length moves the cursor backward, as the counterexample shows),
and the offset returned by `TFile.read` is exactly the decoded
begin-offset field. -/
theorem c9_offset_monotone :
    (∀ (b : Bytes) (offset L off1 : Int) (s : Bytes) (off' : Int),
        TString.declen b offset = some (L, off1) → 0 ≤ L →
        TString.readstring b offset = some (s, off') → offset ≤ off') ∧
    (∀ (b : Bytes) (offset : Int) (f : TFileData) (off' : Int),
        TFile.read b offset = .ok (f, off') → off' = f.fBEGIN) := by
  constructor
  · intro b offset L off1 s off' hd hL hr
    have h1 := declen_ge hd
    have h2 := readstring_of_declen hd
    rw [h2] at hr
    simp only [Option.some.injEq, Prod.mk.injEq] at hr
    omega
  · intro b offset f off' h
    unfold TFile.read at h
    repeat' split at h
    all_goals first
      | exact Except.noConfusion h
      | (simp only [Except.ok.injEq, Prod.mk.injEq] at h
         obtain ⟨hfe, ho⟩ := h
         rw [← hfe, ← ho])

/-- The key-parsing loop never touches the head key, the declared count
or the trailing blob of the state it grows. -/
theorem readKeys_frame :
    ∀ (b : Bytes) (endOff nkeys : Int) (fuel : Nat) (st : TKeyListData) (off : Int)
      (st' : TKeyListData) (off' : Int),
      TKeyList.readKeys b endOff nkeys fuel st off = .ok (st', off') →
      st'.headkey = st.headkey ∧ st'.nKeys = st.nKeys ∧ st'.trailings = st.trailings := by
  intro b endOff nkeys fuel
  induction fuel with
  | zero => intro st off st' off' h; exact Except.noConfusion h
  | succ n ih =>
    intro st off st' off' h
    unfold TKeyList.readKeys at h
    split at h
    · split at h
      · exact Except.noConfusion h
      next k o2 hk2 => exact ih (TKeyList.insertKey st k) o2 st' off' h
    · simp only [Except.ok.injEq, Prod.mk.injEq] at h
      obtain ⟨h1, _⟩ := h
      subst h1
      exact ⟨rfl, rfl, rfl⟩

theorem getLast?_append_one {α : Type} (l : List α) (a : α) :
    (l ++ [a]).getLast? = some a := by
  induction l with
  | nil => rfl
  | cons x xs ih =>
    cases xs with
    | nil => rfl
    | cons y ys =>
      rw [List.cons_append, List.cons_append, List.getLast?_cons_cons]
      rw [List.cons_append] at ih
      exact ih

/-- Where the key-parsing loop stops: either it never ran a successful
iteration (state and cursor unchanged), or the cursor it stops at is the
offset returned by `TKey.read` for the LAST key it recorded. -/
theorem readKeys_last :
    ∀ (b : Bytes) (endOff nkeys : Int) (fuel : Nat) (st : TKeyListData) (off : Int)
      (st' : TKeyListData) (off' : Int),
      TKeyList.readKeys b endOff nkeys fuel st off = .ok (st', off') →
      (st'.parsed = st.parsed ∧ off' = off) ∨
      (∃ koff lastk, st'.parsed.getLast? = some lastk ∧
        TKey.read b koff = .ok (lastk, off')) := by
  intro b endOff nkeys fuel
  induction fuel with
  | zero => intro st off st' off' h; exact Except.noConfusion h
  | succ n ih =>
    intro st off st' off' h
    unfold TKeyList.readKeys at h
    split at h
    · split at h
      · exact Except.noConfusion h
      next k o2 hk2 =>
        rcases ih (TKeyList.insertKey st k) o2 st' off' h with ⟨hp, ho⟩ | hr
        · refine Or.inr ⟨off, k, ?_, ?_⟩
          · rw [hp]
            show (st.parsed ++ [k]).getLast? = some k
            exact getLast?_append_one _ _
          · rw [← ho] at hk2
            exact hk2
        · exact Or.inr hr
    · simp only [Except.ok.injEq, Prod.mk.injEq] at h
      obtain ⟨hs, ho⟩ := h
      subst hs
      exact Or.inl ⟨rfl, ho.symm⟩

/-- The post-loop body of `TKeyList.read` (lines 178-183), as a function
of what the loop produced. -/
theorem read_of_core {b : Bytes} {offset : Int} {stL : TKeyListData} {off3 endOff : Int}
    (hcore : TKeyList.readCore b offset = .ok (stL, off3, endOff)) :
    TKeyList.read b offset =
      (if (stL.keys.length : Int) ≠ stL.nKeys then
        .error ("Expected to read " ++ toString stL.nKeys ++ " keys but got " ++
                toString stL.keys.length)
      else if off3 < endOff then
        .ok ({ stL with trailings := some (pySliceIx b off3 endOff) }, endOff)
      else .ok (stL, off3)) := by
  unfold TKeyList.read
  rw [hcore]

/-- C6 amended: whenever `TKeyList.read` succeeds, the parsed-key count
equals the declared count, and the returned offset and trailing blob are
determined by the cursor at which the loop stopped — which is just after
the 4-byte count field when no key was recorded, and the end of the last
recorded key otherwise: if the loop stopped before the declared end
(start offset plus head-key header length plus head-key object length),
the bytes from the stop cursor to the declared end are retained as the
trailing blob and the declared end is returned; if it stopped exactly at
the declared end, nothing is retained and that offset is returned; if the
last key ran past the declared end, the end of that key is returned,
beyond the declared end, with no trailing blob.  And after the loop,
`read` raises exactly when the count differs: a completed loop with a
count mismatch yields the count-mismatch error, and a completed loop with
matching counts returns normally. -/
theorem c6_keylist_end :
    ∀ (b : Bytes) (offset : Int),
      (∀ (st : TKeyListData) (ret : Int),
        TKeyList.read b offset = .ok (st, ret) →
        ((st.keys.length : Int) = st.nKeys) ∧
        ∃ off3,
          ((st.parsed = [] ∧ off3 = offset + st.headkey.fKeylen + 4) ∨
           (∃ koff lastk, st.parsed.getLast? = some lastk ∧
              TKey.read b koff = .ok (lastk, off3))) ∧
          (off3 < offset + st.headkey.fKeylen + st.headkey.fObjlen →
            ret = offset + st.headkey.fKeylen + st.headkey.fObjlen ∧
            st.trailings =
              some (pySliceIx b off3 (offset + st.headkey.fKeylen + st.headkey.fObjlen))) ∧
          (off3 = offset + st.headkey.fKeylen + st.headkey.fObjlen →
            ret = off3 ∧ st.trailings = none) ∧
          (offset + st.headkey.fKeylen + st.headkey.fObjlen < off3 →
            ret = off3 ∧ st.trailings = none)) ∧
      (∀ (stL : TKeyListData) (off3 endOff : Int),
        TKeyList.readCore b offset = .ok (stL, off3, endOff) →
        (stL.keys.length : Int) ≠ stL.nKeys →
        TKeyList.read b offset =
          .error ("Expected to read " ++ toString stL.nKeys ++ " keys but got " ++
                  toString stL.keys.length)) ∧
      (∀ (stL : TKeyListData) (off3 endOff : Int),
        TKeyList.readCore b offset = .ok (stL, off3, endOff) →
        (stL.keys.length : Int) = stL.nKeys →
        ∃ st ret, TKeyList.read b offset = .ok (st, ret)) := by
  intro b offset
  refine ⟨?_, ?_, ?_⟩
  · intro st ret h
    cases hcore : TKeyList.readCore b offset with
    | error e =>
      unfold TKeyList.read at h
      rw [hcore] at h
      exact Except.noConfusion h
    | ok trip =>
      obtain ⟨stL, off3, endOff⟩ := trip
      rw [read_of_core hcore] at h
      unfold TKeyList.readCore at hcore
      split at hcore
      · exact Except.noConfusion hcore
      next hk off1 hkread =>
        split at hcore
        · exact Except.noConfusion hcore
        next nkb off2 hraw =>
          split at hcore
          · exact Except.noConfusion hcore
          next stL' offL hloop =>
            simp only [Except.ok.injEq, Prod.mk.injEq] at hcore
            obtain ⟨hst0, hoff3, hend⟩ := hcore
            subst hst0
            subst hoff3
            subst hend
            obtain ⟨hfhk0, hfnk0, hftr0⟩ := readKeys_frame _ _ _ _ _ _ _ _ hloop
            have hfhk : stL'.headkey = hk := hfhk0
            have hftr : stL'.trailings = none := hftr0
            have hko := tkey_read_offset hkread
            have ho2 := (readRaw_eq hraw).1
            have hlast := readKeys_last _ _ _ _ _ _ _ _ hloop
            split at h
            · exact Except.noConfusion h
            next hneq =>
              split at h
              next hlt =>
                simp only [Except.ok.injEq, Prod.mk.injEq] at h
                obtain ⟨hst, hret⟩ := h
                subst hst
                subst hret
                refine ⟨by simpa using hneq, offL, ?_, ?_, ?_, ?_⟩
                · rcases hlast with ⟨hp, ho⟩ | hr
                  · left
                    refine ⟨hp, ?_⟩
                    simp only [hfhk]
                    omega
                  · exact Or.inr hr
                · intro hlt2
                  constructor
                  · simp only [hfhk]
                    omega
                  · simp only [hfhk]
                    rw [show off1 + hk.fObjlen = offset + hk.fKeylen + hk.fObjlen by omega]
                · intro heq2
                  exfalso
                  simp only [hfhk] at heq2
                  omega
                · intro hgt2
                  exfalso
                  simp only [hfhk] at hgt2
                  omega
              next hnlt =>
                simp only [Except.ok.injEq, Prod.mk.injEq] at h
                obtain ⟨hst, hret⟩ := h
                subst hst
                subst hret
                refine ⟨by simpa using hneq, offL, ?_, ?_, ?_, ?_⟩
                · rcases hlast with ⟨hp, ho⟩ | hr
                  · left
                    refine ⟨hp, ?_⟩
                    simp only [hfhk]
                    omega
                  · exact Or.inr hr
                · intro hlt2
                  exfalso
                  simp only [hfhk] at hlt2
                  omega
                · intro heq2
                  exact ⟨rfl, hftr⟩
                · intro hgt2
                  exact ⟨rfl, hftr⟩
  · intro stL off3 endOff hcore hne
    rw [read_of_core hcore, if_pos hne]
  · intro stL off3 endOff hcore heqc
    rw [read_of_core hcore, if_neg (fun hne => hne heqc)]
    by_cases hlt : off3 < endOff
    · exact ⟨_, _, by rw [if_pos hlt]⟩
    · exact ⟨_, _, by rw [if_neg hlt]⟩

/-- C6 witness: the amended theorem applied to concrete key lists — the
zero-key list `c6wbuf` exercises the success clause and the
matching-count clause, and the duplicate-identity list `c10fix` (loop
completed with 1 distinct key against a declared 2) exercises the
count-mismatch clause. -/
theorem c6_keylist_end_witness :
    (((c6wstate.keys.length : Int) = c6wstate.nKeys) ∧
      ∃ off3,
        ((c6wstate.parsed = [] ∧ off3 = 0 + c6wstate.headkey.fKeylen + 4) ∨
         (∃ koff lastk, c6wstate.parsed.getLast? = some lastk ∧
            TKey.read c6wbuf koff = .ok (lastk, off3))) ∧
        (off3 < 0 + c6wstate.headkey.fKeylen + c6wstate.headkey.fObjlen →
          (33 : Int) = 0 + c6wstate.headkey.fKeylen + c6wstate.headkey.fObjlen ∧
          c6wstate.trailings =
            some (pySliceIx c6wbuf off3
              (0 + c6wstate.headkey.fKeylen + c6wstate.headkey.fObjlen))) ∧
        (off3 = 0 + c6wstate.headkey.fKeylen + c6wstate.headkey.fObjlen →
          (33 : Int) = off3 ∧ c6wstate.trailings = none) ∧
        (0 + c6wstate.headkey.fKeylen + c6wstate.headkey.fObjlen < off3 →
          (33 : Int) = off3 ∧ c6wstate.trailings = none)) ∧
    (TKeyList.read c10fix 0 =
      .error ("Expected to read " ++ toString c10core.nKeys ++ " keys but got " ++
              toString c10core.keys.length)) ∧
    (∃ st ret, TKeyList.read c6wbuf 0 = .ok (st, ret)) :=
  ⟨(c6_keylist_end c6wbuf 0).1 c6wstate 33 (by decide),
   (c6_keylist_end c10fix 0).2.1 c10core 95 95 (by decide) (by decide),
   (c6_keylist_end c6wbuf 0).2.2 c6core 33 33 (by decide) (by decide)⟩

/-- C7 amended: in a successfully parsed key directory ALL of whose
parsed cycles are nonnegative, lookup by a stored qualified identity
returns exactly the record the `_keys` dict holds under that identity, and
lookup by an unqualified plain name (one carried by some parsed key and
containing no semicolon) returns a key of that name whose cycle is the
maximum cycle among all parsed keys sharing the name.  The nonnegativity
restriction is forced: a key whose cycle is negative (e.g. -1) never beats
the -1 default of the max-cycle index, so its name is never indexed and
plain lookup raises instead (see the counterexample). -/
theorem c7_cycle_resolution :
    ∀ (b : Bytes) (offset : Int) (st : TKeyListData) (ret : Int) (s : Bytes),
      TKeyList.read b offset = .ok (st, ret) →
      (∀ k ∈ st.parsed, 0 ≤ k.fCycle) →
      (∀ id k, List.lookup id st.keys = some k → TKeyList.getitem st id = .ok k) ∧
      ((59 : Nat) ∉ s → (∃ k ∈ st.parsed, k.fName = s) →
        ∃ k, TKeyList.getitem st s = .ok k ∧ k.fName = s ∧
          IsMaxCycle st.parsed s k.fCycle) := by
  intro b offset st ret s hread hpos
  obtain ⟨hkeys, hlc⟩ := read_consistent b offset st ret hread
  constructor
  · intro id k hl
    simp [TKeyList.getitem, TKeyList.resolve, hl]
  · intro hs hex
    have hnone : List.lookup s st.keys = none := by
      rw [hkeys]
      exact lookup_foldl_kStep_none _ _ _ hs rfl
    have hcyc_ne : cyclesOf st.parsed s ≠ [] := by
      obtain ⟨k, hk, hn⟩ := hex
      have hmem : k.fCycle ∈ cyclesOf st.parsed s := by
        unfold cyclesOf
        refine List.mem_map.mpr ⟨k, ?_, rfl⟩
        refine List.mem_filter.mpr ⟨hk, ?_⟩
        simp [hn]
      intro hemp
      rw [hemp] at hmem
      simp at hmem
    have hcyc_pos : ∀ c ∈ cyclesOf st.parsed s, 0 ≤ c := by
      intro c hc
      unfold cyclesOf at hc
      obtain ⟨k, hkf, hfc⟩ := List.mem_map.mp hc
      rw [← hfc]
      exact hpos k (List.mem_filter.mp hkf).1
    obtain ⟨m, hfold, hmem, hmax⟩ := lcFoldOpt_max _ hcyc_ne hcyc_pos
    have hlcs : List.lookup s st.lastcycle = some m := by
      rw [hlc]
      have hstep := lookup_foldl_lcStep st.parsed [] s
      unfold buildLC
      rw [hstep]
      exact hfold
    have hkmx : ∃ km ∈ st.parsed, km.fName = s ∧ km.fCycle = m := by
      unfold cyclesOf at hmem
      obtain ⟨k, hkf, hfc⟩ := List.mem_map.mp hmem
      obtain ⟨hin, hname⟩ := List.mem_filter.mp hkf
      exact ⟨k, hin, by simpa using hname, hfc⟩
    obtain ⟨km, hkm_mem, hkm_name, hkm_cyc⟩ := hkmx
    have hsome : (List.lookup (s ++ 59 :: intDec m) st.keys).isSome := by
      rw [hkeys]
      refine lookup_foldl_kStep_some _ _ _ (Or.inl ⟨km, hkm_mem, ?_⟩)
      unfold TKeyData.namecycle
      rw [hkm_name, hkm_cyc]
      simp
    obtain ⟨k', hk'⟩ := Option.isSome_iff_exists.mp hsome
    have hk'2 : List.lookup (s ++ 59 :: intDec m) (buildKeys st.parsed) = some k' := by
      rw [← hkeys]
      exact hk'
    rcases lookup_foldl_kStep_mem st.parsed [] _ _ hk'2 with habs | ⟨hk'in, hk'nc⟩
    · simp at habs
    have hnc' : k'.fName ++ 59 :: intDec k'.fCycle = s ++ 59 :: intDec m := by
      have h2 : k'.namecycle = k'.fName ++ 59 :: intDec k'.fCycle := by
        unfold TKeyData.namecycle
        simp
      rw [← h2, hk'nc]
    have hdecomp := sep_append_inj s (intDec m) k'.fName (intDec k'.fCycle) hs
      (semi_not_mem_intDec m) hnc'.symm
    have hc' : k'.fCycle = m := (intDec_inj hdecomp.2).symm
    refine ⟨k', ?_, hdecomp.1.symm, ?_⟩
    · simp [TKeyList.getitem, TKeyList.resolve, hnone, hlcs, List.append_assoc, hk']
    · rw [hc']
      exact ⟨hmem, hmax⟩

/-- C7 witness: in the directory with keys `b"h1"` at cycles 1 and 2,
qualified lookup `b"h1;1"` returns the cycle-1 key and plain lookup
`b"h1"` returns a key named `b"h1"` of maximal cycle. -/
theorem c7_cycle_resolution_witness :
    (TKeyList.getitem c7state [104, 49, 59, 49] = .ok c7k1) ∧
    (∃ k, TKeyList.getitem c7state [104, 49] = .ok k ∧ k.fName = [104, 49] ∧
      IsMaxCycle c7state.parsed [104, 49] k.fCycle) := by
  have h := c7_cycle_resolution c7wit 0 c7state 95 [104, 49] (by decide) (by decide)
  exact ⟨h.1 [104, 49, 59, 49] c7k1 (by decide), h.2 (by decide) (by decide)⟩

/-- C8 amended: a successful `ROOTFile.__getitem__` leaves every
already-parsed record unchanged EXCEPT the KeyRecord it looked up, whose
data gains the decoded object (rootfile.py line 103): the key list after
the fetch differs from the one before it only in that one map entry, and
that entry differs from its old record only in the `object` field. -/
theorem c8_getitem_frame :
    ∀ (ext : ExtFuns) (file : Bytes) (kl : TKeyListData) (name : Bytes)
      (obj : TTreeData) (kl' : TKeyListData),
      ROOTFile.getitem ext file kl name = .ok (obj, kl') →
      ∃ kn k, TKeyList.resolve kl name = .ok kn ∧ List.lookup kn kl.keys = some k ∧
        kl'.headkey = kl.headkey ∧ kl'.nKeys = kl.nKeys ∧
        kl'.lastcycle = kl.lastcycle ∧ kl'.trailings = kl.trailings ∧
        kl'.parsed = kl.parsed ∧
        List.lookup kn kl'.keys = some { k with object := some obj } ∧
        (∀ id, id ≠ kn → List.lookup id kl'.keys = List.lookup id kl.keys) := by
  intro ext file kl name obj kl' h
  unfold ROOTFile.getitem at h
  split at h
  · exact Except.noConfusion h
  next kn hres =>
    split at h
    · exact Except.noConfusion h
    next k hlk =>
      split at h
      · exact Except.noConfusion h
      next decode hcm =>
        split at h
        · exact Except.noConfusion h
        next bs hpay =>
          split at h
          · exact Except.noConfusion h
          next obj0 off0 hdec =>
            simp only [Except.ok.injEq, Prod.mk.injEq] at h
            obtain ⟨hobj, hkl⟩ := h
            subst hobj
            subst hkl
            refine ⟨kn, k, hres, hlk, rfl, rfl, rfl, rfl, rfl, ?_, ?_⟩
            · exact lookup_aset_self kl.keys kn _
            · intro id hid
              exact lookup_aset_ne kl.keys kn id _ hid

/-- C8 witness: the amended theorem applied to the concrete `TTree`
fetch from `c8file`. -/
theorem c8_getitem_frame_witness :
    ∃ kn k, TKeyList.resolve c8state [116] = .ok kn ∧
      List.lookup kn c8state.keys = some k ∧
      c8state'.headkey = c8state.headkey ∧ c8state'.nKeys = c8state.nKeys ∧
      c8state'.lastcycle = c8state.lastcycle ∧ c8state'.trailings = c8state.trailings ∧
      c8state'.parsed = c8state.parsed ∧
      List.lookup kn c8state'.keys = some { k with object := some c8obj } ∧
      (∀ id, id ≠ kn → List.lookup id c8state'.keys = List.lookup id c8state.keys) :=
  c8_getitem_frame extTest c8file c8state [116] c8obj c8state' (by decide)

/-- C9 witness: the amended theorem applied to a concrete string and a
concrete file header. -/
theorem c9_offset_monotone_witness :
    ((0 : Int) ≤ 3) ∧ ((63 : Int) = tfileRec.fBEGIN) :=
  ⟨c9_offset_monotone.1 strFix 0 2 1 [65, 66] 3 (by decide) (by decide) (by decide),
   c9_offset_monotone.2 tfileFixBuf 0 tfileRec 63 (by decide)⟩

end AIORoot
